import Mathlib

/-!
Verification development for the `sfusd_lunch` pipeline
(`download.py`, `parse_menu.py`, `add_to_homeassistant.py`, `run.py`).

Pure fragments of the Python sources are embedded as executable Lean
definitions; network and filesystem effects are made explicit (status
codes, an association-list file system, an environment of download /
PDF-text oracles).  Theorems at the end settle the behavioural claims.
-/

/-- Zero-pad a natural number to two digits, as `strftime` does for
`%m`, `%d`, `%H`, `%M`, `%S`. -/
def pad2 (n : Nat) : String :=
  if n < 10 then "0" ++ toString n else toString n

/-- Zero-pad a natural number to four digits, as `strftime` does for `%Y`. -/
def pad4 (n : Nat) : String :=
  if n < 10 then "000" ++ toString n
  else if n < 100 then "00" ++ toString n
  else if n < 1000 then "0" ++ toString n
  else toString n

/-- Value of a decimal digit character, `none` if not a digit. -/
def digitVal (c : Char) : Option Nat :=
  if c.isDigit then some (c.toNat - '0'.toNat) else none

/-- Gregorian leap-year test, as in Python's `datetime`. -/
def isLeapYear (y : Nat) : Bool :=
  (y % 4 == 0 && y % 100 != 0) || y % 400 == 0

/-- Days in a month, as in Python's `datetime`. -/
def daysInMonth (y m : Nat) : Nat :=
  if m == 2 then (if isLeapYear y then 29 else 28)
  else if m == 4 || m == 6 || m == 9 || m == 11 then 30
  else 31

/-- A calendar date, the relevant payload of a Python `datetime` produced by
`datetime.fromisoformat` on a date-only string (time fields are all zero). -/
structure Date where
  year : Nat
  month : Nat
  day : Nat
deriving DecidableEq, Repr

/-- Embedding of `datetime.fromisoformat` restricted to the date-only
form `YYYY-MM-DD` used by the menu records: ten characters, dashes in
place, digits elsewhere, and a valid Gregorian date (year at least 1).
Any other string raises `ValueError` in Python, i.e. returns `none` here. -/
def fromisoformat (s : String) : Option Date :=
  match s.data with
  | [y1, y2, y3, y4, h1, m1, m2, h2, d1, d2] =>
    if h1 == '-' && h2 == '-' then
      match digitVal y1, digitVal y2, digitVal y3, digitVal y4,
            digitVal m1, digitVal m2, digitVal d1, digitVal d2 with
      | some a, some b, some c, some e, some f, some g, some i, some j =>
        let y := 1000 * a + 100 * b + 10 * c + e
        let m := 10 * f + g
        let d := 10 * i + j
        if 1 ≤ y && 1 ≤ m && m ≤ 12 && 1 ≤ d && d ≤ daysInMonth y m then
          some ⟨y, m, d⟩
        else none
      | _, _, _, _, _, _, _, _ => none
    else none
  | _ => none

/-- Embedding of `strftime("%Y-%m-%d %H:%M:%S")` on a date whose time
fields have been replaced by the given hour/minute and zero seconds. -/
def strftimeYmdHms (d : Date) (hour minute second : Nat) : String :=
  pad4 d.year ++ "-" ++ pad2 d.month ++ "-" ++ pad2 d.day ++ " " ++
    pad2 hour ++ ":" ++ pad2 minute ++ ":" ++ pad2 second

/-- The calendar-event payload built by `create_calendar_event`
(`add_to_homeassistant.py`, lines 27-45). -/
structure HAEvent where
  entity_id : String
  summary : String
  description : String
  start_date_time : String
  end_date_time : String
deriving DecidableEq, Repr

/-- One parsed menu record: `{"date": ..., "food": [...]}`. -/
structure MenuItem where
  date : String
  food : List String
deriving DecidableEq, Repr

/-- The event `create_calendar_event` builds once the date has parsed:
entity `calendar.lunch`, summary `Lunch`, bulleted description, and the
day's 11:00-12:00 window formatted with `strftime`. -/
def mkLunchEvent (d : Date) (food_items : List String) : HAEvent :=
  { entity_id := "calendar.lunch"
    summary := "Lunch"
    description := String.intercalate "\n" (food_items.map (fun item => "- " ++ item))
    start_date_time := strftimeYmdHms d 11 0 0
    end_date_time := strftimeYmdHms d 12 0 0 }

/-- Embedding of `create_calendar_event(date_str, food_items)`
(`add_to_homeassistant.py`, lines 27-45): parses the date with
`fromisoformat` (a `ValueError` becomes `none`) and builds the payload. -/
def create_calendar_event (date_str : String) (food_items : List String) : Option HAEvent :=
  (fromisoformat date_str).map (fun d => mkLunchEvent d food_items)

/-- Modelled from the spec: the Home Assistant calendar service is external
to this repository; per the spec it stores events and answers a window query
`[start-of-day, start-of-next-day)` per date.  Events created by the
Publisher sit at 11:00-12:00 of their day, so the store is indexed by the
event's calendar day. -/
abbrev Cal : Type := List (Date × HAEvent)

/-- Events the `GET /api/calendars/calendar.lunch?start=..&end=..` query
returns for the one-day window of date `d`. -/
def windowEvents (cal : Cal) (d : Date) : List HAEvent :=
  (cal.filter (fun e => decide (e.1 = d))).map (fun e => e.2)

/-- The scan at `add_to_homeassistant.py` lines 96-101: does any event
returned for the day have summary `"Lunch"`? -/
def hasLunchEvent (cal : Cal) (d : Date) : Bool :=
  (windowEvents cal d).any (fun e => e.summary == "Lunch")

/-- How one menu record ended: created, skipped as duplicate, or counted
as a failure (non-200 create response). -/
inductive RecordOutcome where
  | added
  | skippedRec
  | failedRec
deriving DecidableEq, Repr

/-- The `success_count` / `skipped_count` / `error_count` tallies kept by
`add_to_homeassistant`. -/
structure Counts where
  success : Nat
  skipped : Nat
  errors : Nat
deriving DecidableEq, Repr

/-- All tallies zero, as initialised at `add_to_homeassistant.py` lines 74-76. -/
def zeroCounts : Counts := ⟨0, 0, 0⟩

/-- Bump the tally matching a record's outcome. -/
def bumpCounts (c : Counts) : RecordOutcome → Counts
  | .added => { c with success := c.success + 1 }
  | .skippedRec => { c with skipped := c.skipped + 1 }
  | .failedRec => { c with errors := c.errors + 1 }

/-- Embedding of one iteration of the loop at `add_to_homeassistant.py`
lines 78-131.  `getStatus` / `postStatus` are the HTTP status codes the
duplicate-check GET and the create POST would return.  The date parse at
line 81 sits OUTSIDE the `try`, so an unparsable date is an uncaught
exception: result `none` (the batch aborts).  Inside the `try`: a 200 GET
whose events include a `"Lunch"` summary skips the record; otherwise the
event is created (POST 200) or the failure is tallied (POST non-200). -/
def processItem (getStatus postStatus : Nat) (cal : Cal) (it : MenuItem) :
    Option (Cal × RecordOutcome) :=
  match fromisoformat it.date with
  | none => none
  | some d =>
    let lunch_event_exists := if getStatus == 200 then hasLunchEvent cal d else false
    if lunch_event_exists then some (cal, .skippedRec)
    else if postStatus == 200 then some ((d, mkLunchEvent d it.food) :: cal, .added)
    else some (cal, .failedRec)

/-- Embedding of the batch loop of `add_to_homeassistant` (lines 74-134).
`getStatus i` / `postStatus i` give the HTTP statuses seen while processing
record number `i`.  Returns the final calendar, the tallies, and whether the
loop ran to completion (`false` means an exception escaped the loop and the
remaining records were never processed). -/
def add_to_homeassistant (getStatus postStatus : Nat → Nat) :
    Nat → Cal → Counts → List MenuItem → Cal × Counts × Bool
  | _, cal, counts, [] => (cal, counts, true)
  | i, cal, counts, it :: rest =>
    match processItem (getStatus i) (postStatus i) cal it with
    | none => (cal, counts, false)
    | some (cal', oc) =>
      add_to_homeassistant getStatus postStatus (i + 1) cal' (bumpCounts counts oc) rest

/-- Every HTTP call answers 200, the functioning-service environment. -/
def allOk : Nat → Nat := fun _ => 200

/-- JSON values, the shape `json.loads` yields (numbers as integers
suffice for the menu payloads). -/
inductive Json where
  | null
  | bool (b : Bool)
  | num (n : Int)
  | str (s : String)
  | arr (items : List Json)
  | obj (fields : List (String × Json))

/-- Key lookup in a JSON object, Python's `d['menu']` / `'menu' in d`. -/
def jsonLookup (fields : List (String × Json)) (key : String) : Option Json :=
  match fields with
  | [] => none
  | (k, v) :: rest => if k == key then some v else jsonLookup rest key

/-- Embedding of the response normalisation shared by
`parse_menu_with_openai` (`parse_menu.py` lines 84-90) and
`parse_menu_with_gemini` (lines 134-140): a dict with a `menu` key is
unwrapped to the value under that key; a list is returned as is; anything
else raises `ValueError("... response is not in expected format")`. -/
def ensure_menu_list (j : Json) : Except String Json :=
  match j with
  | .obj fields =>
    match jsonLookup fields "menu" with
    | some v => Except.ok v
    | none => Except.error "response is not in expected format"
  | .arr items => Except.ok (.arr items)
  | _ => Except.error "response is not in expected format"

/-- Whether a JSON value is a list (`isinstance(menu_data, list)`). -/
def jsonIsList : Json → Bool
  | .arr _ => true
  | _ => false

/-- The value under `menu` when the JSON value is an object carrying that
key (`isinstance(menu_data, dict) and 'menu' in menu_data`). -/
def jsonMenuValue : Json → Option Json
  | .obj fields => jsonLookup fields "menu"
  | _ => none

/-- The final path component of a POSIX path (`pathlib.Path(p).name`):
the characters after the last `/`. -/
def lastComponentChars (l : List Char) : List Char :=
  (l.reverse.takeWhile (fun c => !(c == '/'))).reverse

/-- `pathlib`'s stem of a file NAME: drop the last `.`-suffix when the
last dot index `i` satisfies `0 < i < len(name) - 1`, else the name. -/
def pyStemChars (name : List Char) : List Char :=
  let rev := name.reverse
  let ext := rev.takeWhile (fun c => !(c == '.'))
  if ext.length == name.length then name
  else if ext.length == 0 then name
  else if ext.length + 1 == name.length then name
  else (rev.drop (ext.length + 1)).reverse

/-- `pathlib`'s suffix of a file NAME: the last `.`-suffix when the last
dot index `i` satisfies `0 < i < len(name) - 1`, else the empty string. -/
def pySuffixChars (name : List Char) : List Char :=
  let rev := name.reverse
  let ext := rev.takeWhile (fun c => !(c == '.'))
  if ext.length == name.length then []
  else if ext.length == 0 then []
  else if ext.length + 1 == name.length then []
  else '.' :: ext.reverse

/-- `pathlib.Path(p).stem`. -/
def pathStem (p : String) : String :=
  ⟨pyStemChars (lastComponentChars p.data)⟩

/-- `pathlib.Path(p).suffix`. -/
def pathSuffix (p : String) : String :=
  ⟨pySuffixChars (lastComponentChars p.data)⟩

/-- `pathlib.Path(p).parent` for the path shapes at play: the characters
before the last `/` (`"."` when there is no `/`, `"/"` for a root child). -/
def pathParentDir (p : String) : String :=
  let rev := p.data.reverse
  let nm := rev.takeWhile (fun c => !(c == '/'))
  if nm.length == p.data.length then "."
  else
    let remaining := rev.drop (nm.length + 1)
    if remaining.isEmpty then "/" else ⟨remaining.reverse⟩

/-- Embedding of the output-path computation in `parse_menu.py` `main`
(line 161): `Path(f"data/{pdf_path_obj.stem}.json")` — the FIXED `data`
directory joined with the PDF's stem and a `.json` extension. -/
def parse_menu_output_file (pdf_path : String) : String :=
  "data/" ++ pathStem pdf_path ++ ".json"

/-- Exit status of `download.py` run as a script (lines 140-142):
`exit(0 if success else 1)`. -/
def download_exit (success : Bool) : Nat :=
  if success then 0 else 1

/-- How a run of `parse_menu.py` `main` (lines 147-172) ends: wrong
argument count, an exception from parsing/writing, or completion. -/
inductive ParseMenuRun where
  | usageError
  | raised
  | completed
deriving DecidableEq, Repr

/-- Exit status of `parse_menu.py` `main`: `sys.exit(1)` on usage error
(line 152) and on any exception (line 172), implicit 0 on completion. -/
def parse_menu_exit : ParseMenuRun → Nat
  | .usageError => 1
  | .raised => 1
  | .completed => 0

/-- How a run of `add_to_homeassistant.py` `main` (lines 137-150) ends:
an exception (caught, printed with traceback) or completion. -/
inductive PublisherRun where
  | raised
  | completed
deriving DecidableEq, Repr

/-- Exit status of `add_to_homeassistant.py` `main`: the `except` block
at lines 147-150 prints the error and falls through — there is no
`sys.exit`, so the process exits 0 on every run, failures included. -/
def add_to_homeassistant_exit : PublisherRun → Nat
  | _ => 0

/-- How the parse subprocess looks to the Orchestrator (`run.py` lines
76-98): it either failed (`CalledProcessError`, non-zero exit) or finished,
in which case its last stdout line may or may not be a valid existing path. -/
inductive ParseOutcome where
  | failed
  | finished (lastLineValidPath : Bool)
deriving DecidableEq, Repr

/-- Which steps the Orchestrator ran for one PDF. -/
structure PipelineFileRun where
  ranParse : Bool
  newlyParsed : Bool
  ranPublish : Bool
deriving DecidableEq, Repr

/-- Embedding of the per-PDF body of `run.py` `main` (lines 65-115):
skip the parse step when the JSON already exists (leaving `newly_parsed`
false), otherwise run it; run the Home Assistant step only when
`newly_parsed` is true. -/
def process_pdf (jsonExists : Bool) (parse : ParseOutcome) : PipelineFileRun :=
  if jsonExists then ⟨false, false, false⟩
  else
    match parse with
    | .failed => ⟨true, false, false⟩
    | .finished valid =>
      if valid then ⟨true, true, true⟩ else ⟨true, false, false⟩

/-- Code-point lexicographic comparison of character lists, the order
Python's `sorted` uses on strings. -/
def lexLeb : List Char → List Char → Bool
  | [], _ => true
  | _ :: _, [] => false
  | a :: as, b :: bs =>
    if a.toNat < b.toNat then true
    else if b.toNat < a.toNat then false
    else lexLeb as bs

/-- Python's `s1 <= s2` on strings. -/
def strLeb (a b : String) : Bool := lexLeb a.data b.data

/-- The proposition `strLeb a b`, the order `sorted` arranges by. -/
def strLe (a b : String) : Prop := strLeb a b = true

instance : DecidableRel strLe := fun _ _ => inferInstanceAs (Decidable (_ = true))

/-- Embedding of `unique_links = sorted(list(set(potential_links)))`
(`download.py` line 87): duplicates removed, then ascending lexicographic
order of the link text. -/
def unique_links (potential_links : List String) : List String :=
  List.insertionSort strLe potential_links.dedup

/-- Does `pat` start the list `l`? -/
def startsWithChars : List Char → List Char → Bool
  | [], _ => true
  | _ :: _, [] => false
  | p :: ps, c :: cs => p == c && startsWithChars ps cs

/-- Does `pat` occur as a contiguous sublist of `l`?  (Python's `in`.) -/
def hasSubChars (pat : List Char) : List Char → Bool
  | [] => pat.isEmpty
  | c :: cs => startsWithChars pat (c :: cs) || hasSubChars pat cs

/-- Python's substring test `pat in hay`. -/
def containsSub (hay pat : String) : Bool := hasSubChars pat.data hay.data

/-- ASCII lowercase of one character (`str.lower` on the ASCII letters
appearing in month names and menu text). -/
def charLower (c : Char) : Char :=
  if 65 ≤ c.toNat && c.toNat ≤ 90 then Char.ofNat (c.toNat + 32) else c

/-- `str.lower`, character by character. -/
def strLower (s : String) : String := ⟨s.data.map charLower⟩

/-- Characters the Drive file-id class `[a-zA-Z0-9_-]` accepts. -/
def isDriveIdChar (c : Char) : Bool :=
  c.isAlpha || c.isDigit || c == '_' || c == '-'

/-- `re.search(r'/file/d/([a-zA-Z0-9_-]+)', link)`: scan left to right for
an occurrence of `/file/d/` followed by at least one id character, and
return the maximal id run, as the regex engine would. -/
def findDriveId : List Char → Option (List Char)
  | [] => none
  | c :: cs =>
    if startsWithChars ['/', 'f', 'i', 'l', 'e', '/', 'd', '/'] (c :: cs) then
      let cap := ((c :: cs).drop 8).takeWhile isDriveIdChar
      if cap.isEmpty then findDriveId cs else some cap
    else findDriveId cs

/-- Embedding of `convert_google_drive_link` (`download.py` lines 23-30). -/
def convert_google_drive_link (link : String) : String :=
  match findDriveId link.data with
  | some cap => "https://drive.google.com/uc?export=download&id=" ++ ⟨cap⟩
  | none => link

/-- A flat file system: association list from path to file content. -/
abbrev FS : Type := List (String × String)

/-- The empty file system. -/
def fsEmpty : FS := []

/-- Content at a path, if the file exists. -/
def fsLookup (fs : FS) (p : String) : Option String :=
  (fs.find? (fun e => e.1 == p)).map (fun e => e.2)

/-- Write (create or overwrite) a file. -/
def fsWrite (fs : FS) (p c : String) : FS :=
  (p, c) :: fs.filter (fun e => !(e.1 == p))

/-- `Path.unlink`. -/
def fsUnlink (fs : FS) (p : String) : FS :=
  fs.filter (fun e => !(e.1 == p))

/-- `Path.exists`. -/
def fsExists (fs : FS) (p : String) : Bool :=
  (fsLookup fs p).isSome

/-- `Path.rename`: move the content of `src` to `dst`. -/
def fsRename (fs : FS) (src dst : String) : FS :=
  match fsLookup fs src with
  | some c => fsWrite (fsUnlink fs src) dst c
  | none => fs

/-- The Fetcher's external world: the lowercase current-month name, the
network (`requests.get` per download URL; `none` is a `RequestException`)
and the PDF text extractor (first-page text per downloaded content;
`none` is an unreadable PDF). -/
structure FetchEnv where
  month : String
  download : String → Option String
  pdfText : String → Option String

/-- Embedding of `is_pdf_for_current_month` (`download.py` lines 33-49)
on a downloaded content: readable first-page text containing the
lowercase month name. -/
def is_pdf_for_current_month (env : FetchEnv) (content : String) : Bool :=
  match env.pdfText content with
  | some text => containsSub (strLower text) env.month
  | none => false

/-- The temp path `data/temp/menu_{i}.pdf` of candidate number `i`. -/
def temp_file (i : Nat) : String :=
  "data/temp/menu_" ++ toString i ++ ".pdf"

/-- The month-named output path `data/{current_month}.pdf`. -/
def output_file (month : String) : String :=
  "data/" ++ month ++ ".pdf"

/-- Embedding of the candidate loop of `download_menu` (`download.py`
lines 98-122): per candidate, record its temp path, download (a failure
skips to the next candidate), write the temp file, and on the first
candidate whose PDF matches the month, rename it to the output file and
stop.  Returns the file system, the accumulated `temp_files`, and
`found_menu`. -/
def download_loop (env : FetchEnv) :
    Nat → List String → FS → List String → FS × List String × Bool
  | _, [], fs, temps => (fs, temps, false)
  | i, link :: rest, fs, temps =>
    let tf := temp_file i
    let temps' := temps ++ [tf]
    match env.download (convert_google_drive_link link) with
    | none => download_loop env (i + 1) rest fs temps'
    | some content =>
      let fs' := fsWrite fs tf content
      if is_pdf_for_current_month env content then
        (fsRename fs' tf (output_file env.month), temps', true)
      else download_loop env (i + 1) rest fs' temps'

/-- Embedding of the cleanup at `download.py` lines 124-127: unlink each
recorded temp file that still exists. -/
def cleanupTemps (fs : FS) (temps : List String) : FS :=
  temps.foldl (fun acc t => if fsExists acc t then fsUnlink acc t else acc) fs

/-- Embedding of `download_menu` (`download.py` lines 52-137) from the
point where the matching links have been collected (the listing fetch and
HTML scan are abstracted into the given `potential_links`): no links means
failure; otherwise dedup + sort, run the candidate loop on an empty data
directory, clean up the temp files, and report `found_menu`. -/
def download_menu (env : FetchEnv) (potential_links : List String) :
    FS × List String × Bool :=
  match potential_links with
  | [] => (fsEmpty, [], false)
  | _ :: _ =>
    let r := download_loop env 0 (unique_links potential_links) fsEmpty []
    (cleanupTemps r.1 r.2.1, r.2.1, r.2.2)

/-- A concrete Fetcher world: August, two downloadable candidates whose
PDFs say July and August respectively, a third candidate that would fail
to download. -/
def envW : FetchEnv :=
  { month := "august"
    download := fun u =>
      if u == "http://x/a.pdf" then some "PDFA"
      else if u == "http://x/b.pdf" then some "PDFB"
      else none
    pdfText := fun c =>
      if c == "PDFA" then some "July Menu"
      else if c == "PDFB" then some "August Menu"
      else none }

/-! ## Theorems -/

/-- C1 counterexample: a batch whose first record has an unparsable date
and whose second record is perfectly valid.  The `fromisoformat` call at
`add_to_homeassistant.py` line 81 sits before the per-record `try`, so the
exception aborts the batch: nothing is tallied (no error count), the loop
does not continue, and the valid second record is never attempted. -/
theorem c1_counterexample :
    add_to_homeassistant allOk allOk 0 [] zeroCounts
      [⟨"not-a-date", ["Taco"]⟩, ⟨"2025-08-19", ["Pizza"]⟩]
      = ([], zeroCounts, false) := by decide

/-- C1 (amended): a record whose date string does not parse raises before
the per-record `try`, aborting the batch with the remaining records
unprocessed and nothing tallied; a record that fails after its date parses
(here: a non-200 create response) is counted as an error and the batch
continues with the next record. -/
theorem c1_amended :
    (∀ (getS postS : Nat → Nat) (i : Nat) (cal : Cal) (counts : Counts)
       (it : MenuItem) (rest : List MenuItem),
      fromisoformat it.date = none →
      add_to_homeassistant getS postS i cal counts (it :: rest) = (cal, counts, false)) ∧
    (∀ (getS postS : Nat → Nat) (i : Nat) (cal : Cal) (counts : Counts)
       (it : MenuItem) (rest : List MenuItem) (d : Date),
      fromisoformat it.date = some d → hasLunchEvent cal d = false → postS i ≠ 200 →
      add_to_homeassistant getS postS i cal counts (it :: rest)
        = add_to_homeassistant getS postS (i + 1) cal
            (bumpCounts counts RecordOutcome.failedRec) rest) := by
  constructor
  · intro getS postS i cal counts it rest hd
    simp [add_to_homeassistant, processItem, hd]
  · intro getS postS i cal counts it rest d hd hl hpost
    have hb : (postS i == 200) = false := beq_eq_false_iff_ne.mpr hpost
    cases hg : getS i == 200 <;>
      simp [add_to_homeassistant, processItem, hd, hg, hl, hb]

/-- C1 amended witness: concrete instance of the abort branch. -/
theorem c1_amended_witness :
    fromisoformat "not-a-date" = none ∧
    add_to_homeassistant allOk allOk 0 [] zeroCounts
      [⟨"not-a-date", ["Taco"]⟩, ⟨"2025-08-19", ["Pizza"]⟩]
      = ([], zeroCounts, false) :=
  ⟨by decide, c1_amended.1 allOk allOk 0 [] zeroCounts
    ⟨"not-a-date", ["Taco"]⟩ [⟨"2025-08-19", ["Pizza"]⟩] (by decide)⟩

/-- A `"Lunch"`-summary event exists in the day's window iff the calendar
holds one for that date. -/
theorem hasLunchEvent_iff (cal : Cal) (d : Date) :
    hasLunchEvent cal d = true ↔ ∃ ev, (d, ev) ∈ cal ∧ ev.summary = "Lunch" := by
  unfold hasLunchEvent windowEvents
  rw [List.any_eq_true]
  constructor
  · rintro ⟨ev, hmem, hsum⟩
    rw [List.mem_map] at hmem
    obtain ⟨q, hq, rfl⟩ := hmem
    rw [List.mem_filter, decide_eq_true_eq] at hq
    obtain ⟨hqc, hqd⟩ := hq
    refine ⟨q.2, ?_, beq_iff_eq.mp hsum⟩
    rw [← hqd]
    exact hqc
  · rintro ⟨ev, hmem, hsum⟩
    refine ⟨ev, ?_, beq_iff_eq.mpr hsum⟩
    rw [List.mem_map]
    exact ⟨(d, ev), List.mem_filter.mpr ⟨hmem, by simp⟩, rfl⟩

/-- A `"Lunch"` event survives adding events to the calendar. -/
theorem hasLunchEvent_mono {cal cal' : Cal} (hsub : ∀ e, e ∈ cal → e ∈ cal')
    {d : Date} (h : hasLunchEvent cal d = true) : hasLunchEvent cal' d = true := by
  rw [hasLunchEvent_iff] at h ⊢
  obtain ⟨ev, hm, hs⟩ := h
  exact ⟨ev, hsub _ hm, hs⟩

/-- When the duplicate-check succeeds and finds a `"Lunch"` event, the
record is skipped and the calendar is untouched. -/
theorem processItem_skip {cal : Cal} {it : MenuItem} {d : Date}
    (hd : fromisoformat it.date = some d) (hl : hasLunchEvent cal d = true) :
    processItem 200 200 cal it = some (cal, RecordOutcome.skippedRec) := by
  simp [processItem, hd, hl]

/-- When the duplicate-check succeeds and finds no `"Lunch"` event, the
record's event is created. -/
theorem processItem_add {cal : Cal} {it : MenuItem} {d : Date}
    (hd : fromisoformat it.date = some d) (hl : hasLunchEvent cal d = false) :
    processItem 200 200 cal it
      = some ((d, mkLunchEvent d it.food) :: cal, RecordOutcome.added) := by
  simp [processItem, hd, hl]

/-- One unfolding of the batch loop when the record's processing yields an
in-loop outcome. -/
theorem add_step {getS postS : Nat → Nat} {i : Nat} {cal cal₂ : Cal} {counts : Counts}
    {it : MenuItem} {rest : List MenuItem} {oc : RecordOutcome}
    (h : processItem (getS i) (postS i) cal it = some (cal₂, oc)) :
    add_to_homeassistant getS postS i cal counts (it :: rest)
      = add_to_homeassistant getS postS (i + 1) cal₂ (bumpCounts counts oc) rest := by
  simp [add_to_homeassistant, h]

/-- Against a functioning service, a batch of records with parsable dates
runs to completion: each record is either created or skipped (never an
error), the calendar only grows, and afterwards every record's date has a
`"Lunch"` event on the calendar. -/
theorem run_all_ok : ∀ (items : List MenuItem),
    (∀ it ∈ items, (fromisoformat it.date).isSome = true) →
    ∀ (i : Nat) (cal : Cal) (counts : Counts),
    ∃ (cal' : Cal) (c' : Counts),
      add_to_homeassistant allOk allOk i cal counts items = (cal', c', true) ∧
      c'.success + c'.skipped = counts.success + counts.skipped + items.length ∧
      c'.errors = counts.errors ∧
      (∀ e, e ∈ cal → e ∈ cal') ∧
      (∀ it ∈ items, ∀ dx, fromisoformat it.date = some dx →
        hasLunchEvent cal' dx = true) := by
  intro items
  induction items with
  | nil =>
    intro _ i cal counts
    exact ⟨cal, counts, rfl, by simp, rfl, fun _ h => h, by simp⟩
  | cons it rest ih =>
    intro hval i cal counts
    obtain ⟨d, hd⟩ := Option.isSome_iff_exists.mp (hval it (by simp))
    have hrest : ∀ x ∈ rest, (fromisoformat x.date).isSome = true :=
      fun x hx => hval x (List.mem_cons_of_mem _ hx)
    by_cases hl : hasLunchEvent cal d = true
    · obtain ⟨cal', c', heq, hsum, herr, hsub, hlunch⟩ :=
        ih hrest (i + 1) cal (bumpCounts counts RecordOutcome.skippedRec)
      refine ⟨cal', c', ?_, ?_, ?_, hsub, ?_⟩
      · rw [add_step (processItem_skip hd hl)]
        exact heq
      · simp only [bumpCounts] at hsum
        simp only [List.length_cons]
        omega
      · simpa [bumpCounts] using herr
      · intro x hx dx hdx
        rcases List.mem_cons.mp hx with hhead | hx'
        · subst hhead
          rw [hd] at hdx
          cases hdx
          exact hasLunchEvent_mono hsub hl
        · exact hlunch x hx' dx hdx
    · have hl' : hasLunchEvent cal d = false := by
        cases h : hasLunchEvent cal d
        · rfl
        · exact absurd h hl
      obtain ⟨cal', c', heq, hsum, herr, hsub, hlunch⟩ :=
        ih hrest (i + 1) ((d, mkLunchEvent d it.food) :: cal)
          (bumpCounts counts RecordOutcome.added)
      refine ⟨cal', c', ?_, ?_, ?_, ?_, ?_⟩
      · rw [add_step (processItem_add hd hl')]
        exact heq
      · simp only [bumpCounts] at hsum
        simp only [List.length_cons]
        omega
      · simpa [bumpCounts] using herr
      · exact fun e he => hsub e (List.mem_cons_of_mem _ he)
      · intro x hx dx hdx
        rcases List.mem_cons.mp hx with hhead | hx'
        · subst hhead
          rw [hd] at hdx
          cases hdx
          apply hasLunchEvent_mono hsub
          rw [hasLunchEvent_iff]
          exact ⟨mkLunchEvent d x.food, List.mem_cons_self _ _, rfl⟩
        · exact hlunch x hx' dx hdx

/-- Against a functioning service, a batch all of whose dates already carry
a `"Lunch"` event is skipped wholesale: the calendar is unchanged and every
record is tallied as skipped. -/
theorem run_all_skip : ∀ (items : List MenuItem) (cal : Cal),
    (∀ it ∈ items, ∃ d, fromisoformat it.date = some d ∧ hasLunchEvent cal d = true) →
    ∀ (i : Nat) (counts : Counts),
    add_to_homeassistant allOk allOk i cal counts items
      = (cal, ⟨counts.success, counts.skipped + items.length, counts.errors⟩, true) := by
  intro items
  induction items with
  | nil =>
    intro cal _ i counts
    simp [add_to_homeassistant]
  | cons it rest ih =>
    intro cal hall i counts
    obtain ⟨d, hd, hl⟩ := hall it (by simp)
    have hrest : ∀ x ∈ rest, ∃ dx, fromisoformat x.date = some dx ∧
        hasLunchEvent cal dx = true :=
      fun x hx => hall x (List.mem_cons_of_mem _ hx)
    rw [add_step (processItem_skip hd hl),
        ih cal hrest (i + 1) (bumpCounts counts RecordOutcome.skippedRec)]
    have harith : counts.skipped + 1 + rest.length = counts.skipped + (it :: rest).length := by
      simp only [List.length_cons]
      omega
    simp only [bumpCounts, harith]

/-- C2 (confirmed): for a valid MenuSet (every date parses) against a
functioning calendar service, the Publisher reaches a per-record
skip-or-create decision for every record (success + skipped = number of
records, no errors); the decision is exactly "skip iff a `"Lunch"` event
already exists in that date's window, else create"; and a second run on
the resulting calendar skips everything — zero new events are created. -/
theorem c2_publisher_idempotent (items : List MenuItem) (cal₀ : Cal)
    (hvalid : ∀ it ∈ items, (fromisoformat it.date).isSome = true) :
    ∃ (cal₁ : Cal) (c₁ : Counts),
      add_to_homeassistant allOk allOk 0 cal₀ zeroCounts items = (cal₁, c₁, true) ∧
      c₁.success + c₁.skipped = items.length ∧
      c₁.errors = 0 ∧
      (∀ (cal : Cal) (it : MenuItem) (d : Date), fromisoformat it.date = some d →
        ((processItem 200 200 cal it = some (cal, RecordOutcome.skippedRec)) ↔
          hasLunchEvent cal d = true) ∧
        (hasLunchEvent cal d = false →
          processItem 200 200 cal it
            = some ((d, mkLunchEvent d it.food) :: cal, RecordOutcome.added))) ∧
      add_to_homeassistant allOk allOk 0 cal₁ zeroCounts items
        = (cal₁, ⟨0, items.length, 0⟩, true) := by
  obtain ⟨cal₁, c₁, heq, hsum, herr, _, hlunch⟩ := run_all_ok items hvalid 0 cal₀ zeroCounts
  refine ⟨cal₁, c₁, heq, by simpa [zeroCounts] using hsum, by simpa [zeroCounts] using herr,
    ?_, ?_⟩
  · intro cal it d hd
    constructor
    · constructor
      · intro hp
        by_contra hfalse
        have hl : hasLunchEvent cal d = false := by
          cases h : hasLunchEvent cal d
          · rfl
          · exact absurd h hfalse
        rw [processItem_add hd hl] at hp
        simp at hp
      · intro hl
        exact processItem_skip hd hl
    · intro hl
      exact processItem_add hd hl
  · have hall : ∀ it ∈ items, ∃ d, fromisoformat it.date = some d ∧
        hasLunchEvent cal₁ d = true := by
      intro it hit
      obtain ⟨d, hd⟩ := Option.isSome_iff_exists.mp (hvalid it hit)
      exact ⟨d, hd, hlunch it hit d hd⟩
    have := run_all_skip items cal₁ hall 0 zeroCounts
    simpa [zeroCounts] using this

/-- C2 witness: a one-record valid MenuSet against an empty calendar. -/
theorem c2_witness :
    (∀ it ∈ [MenuItem.mk "2025-08-19" ["Pizza", "Salad"]],
      (fromisoformat it.date).isSome = true) ∧
    (∃ (cal₁ : Cal) (c₁ : Counts),
      add_to_homeassistant allOk allOk 0 [] zeroCounts
        [MenuItem.mk "2025-08-19" ["Pizza", "Salad"]] = (cal₁, c₁, true) ∧
      c₁.success + c₁.skipped = [MenuItem.mk "2025-08-19" ["Pizza", "Salad"]].length ∧
      c₁.errors = 0 ∧
      (∀ (cal : Cal) (it : MenuItem) (d : Date), fromisoformat it.date = some d →
        ((processItem 200 200 cal it = some (cal, RecordOutcome.skippedRec)) ↔
          hasLunchEvent cal d = true) ∧
        (hasLunchEvent cal d = false →
          processItem 200 200 cal it
            = some ((d, mkLunchEvent d it.food) :: cal, RecordOutcome.added))) ∧
      add_to_homeassistant allOk allOk 0 cal₁ zeroCounts
        [MenuItem.mk "2025-08-19" ["Pizza", "Salad"]]
        = (cal₁, ⟨0, [MenuItem.mk "2025-08-19" ["Pizza", "Salad"]].length, 0⟩, true)) :=
  ⟨by decide, c2_publisher_idempotent [MenuItem.mk "2025-08-19" ["Pizza", "Salad"]] []
    (by decide)⟩

/-- C3 (confirmed): whenever the record's date parses,
`create_calendar_event` stamps the event with that date at 11:00:00 as
start and 12:00:00 as end in `%Y-%m-%d %H:%M:%S` format; in particular
`"2025-08-19"` yields `"2025-08-19 11:00:00"` / `"2025-08-19 12:00:00"`. -/
theorem c3_event_times :
    (∀ (date_str : String) (food : List String) (d : Date),
      fromisoformat date_str = some d →
      ∃ ev, create_calendar_event date_str food = some ev ∧
        ev.start_date_time = strftimeYmdHms d 11 0 0 ∧
        ev.end_date_time = strftimeYmdHms d 12 0 0) ∧
    (∀ food : List String,
      ∃ ev, create_calendar_event "2025-08-19" food = some ev ∧
        ev.start_date_time = "2025-08-19 11:00:00" ∧
        ev.end_date_time = "2025-08-19 12:00:00") := by
  constructor
  · intro date_str food d hd
    exact ⟨mkLunchEvent d food, by simp [create_calendar_event, hd], rfl, rfl⟩
  · intro food
    exact ⟨mkLunchEvent ⟨2025, 8, 19⟩ food, rfl, rfl, rfl⟩

/-- C3 witness: the `2025-08-19` instance. -/
theorem c3_witness :
    fromisoformat "2025-08-19" = some ⟨2025, 8, 19⟩ ∧
    (∃ ev, create_calendar_event "2025-08-19" ["Pizza"] = some ev ∧
      ev.start_date_time = strftimeYmdHms ⟨2025, 8, 19⟩ 11 0 0 ∧
      ev.end_date_time = strftimeYmdHms ⟨2025, 8, 19⟩ 12 0 0) :=
  ⟨by decide, c3_event_times.1 "2025-08-19" ["Pizza"] ⟨2025, 8, 19⟩ (by decide)⟩

/-- C4 (confirmed): the event description is the food items each prefixed
with `"- "` and joined with newlines; `["Pizza", "Salad"]` yields
`"- Pizza\n- Salad"`. -/
theorem c4_description :
    (∀ (date_str : String) (food : List String) (d : Date),
      fromisoformat date_str = some d →
      ∃ ev, create_calendar_event date_str food = some ev ∧
        ev.description = String.intercalate "\n" (food.map (fun item => "- " ++ item))) ∧
    (∃ ev, create_calendar_event "2025-08-19" ["Pizza", "Salad"] = some ev ∧
      ev.description = "- Pizza\n- Salad") := by
  constructor
  · intro date_str food d hd
    exact ⟨mkLunchEvent d food, by simp [create_calendar_event, hd], rfl⟩
  · exact ⟨mkLunchEvent ⟨2025, 8, 19⟩ ["Pizza", "Salad"], rfl, by decide⟩

/-- C4 witness: the `["Pizza", "Salad"]` instance. -/
theorem c4_witness :
    fromisoformat "2025-08-19" = some ⟨2025, 8, 19⟩ ∧
    (∃ ev, create_calendar_event "2025-08-19" ["Pizza", "Salad"] = some ev ∧
      ev.description = String.intercalate "\n"
        (["Pizza", "Salad"].map (fun item => "- " ++ item))) :=
  ⟨by decide, c4_description.1 "2025-08-19" ["Pizza", "Salad"] ⟨2025, 8, 19⟩ (by decide)⟩

/-- C5 (confirmed): a JSON object carrying a `menu` key is unwrapped to
the value under that key; a JSON list is used as is; anything that is
neither a list nor an object with a `menu` key fails with the format
error, with no coercion. -/
theorem c5_response_shape :
    (∀ (j v : Json), jsonMenuValue j = some v → ensure_menu_list j = Except.ok v) ∧
    (∀ items : List Json, ensure_menu_list (Json.arr items) = Except.ok (Json.arr items)) ∧
    (∀ j : Json, jsonIsList j = false → jsonMenuValue j = none →
      ensure_menu_list j = Except.error "response is not in expected format") := by
  refine ⟨?_, fun items => rfl, ?_⟩
  · intro j v hv
    cases j <;> simp [jsonMenuValue] at hv
    simp [ensure_menu_list, hv]
  · intro j hlist hmenu
    cases j <;> simp [jsonIsList] at hlist ⊢ <;>
      simp [jsonMenuValue] at hmenu <;> simp [ensure_menu_list, hmenu]

/-- C5 witness: an object wrapping the list under `menu`. -/
theorem c5_witness :
    jsonMenuValue (Json.obj [("menu", Json.arr [])]) = some (Json.arr []) ∧
    ensure_menu_list (Json.obj [("menu", Json.arr [])]) = Except.ok (Json.arr []) :=
  ⟨rfl, c5_response_shape.1 (Json.obj [("menu", Json.arr [])]) (Json.arr []) rfl⟩

/-- C7 (confirmed): when the JSON output already exists before the parse
step, `newly_parsed` stays false and the Home Assistant step is skipped,
whatever the parse subprocess would have reported. -/
theorem c7_no_publish_when_json_exists (parse : ParseOutcome) :
    (process_pdf true parse).ranPublish = false := rfl

/-- C8 counterexample: a failing Publisher run (`main` caught an
exception) still exits with status 0 — `add_to_homeassistant.py` lines
147-150 print the error and fall through without `sys.exit`. -/
theorem c8_counterexample : add_to_homeassistant_exit PublisherRun.raised = 0 := rfl

/-- C8 (amended): the Fetcher and the Extractor terminate with a non-zero
exit status on every failing run, but the Publisher's `main` catches every
exception and returns normally, so the Publisher process exits 0 even when
it fails. -/
theorem c8_amended :
    (∀ success : Bool, success = false → download_exit success ≠ 0) ∧
    (∀ r : ParseMenuRun, r ≠ ParseMenuRun.completed → parse_menu_exit r ≠ 0) ∧
    (∀ r : PublisherRun, add_to_homeassistant_exit r = 0) := by
  refine ⟨?_, ?_, fun r => rfl⟩
  · intro success h
    subst h
    decide
  · intro r h
    cases r
    · decide
    · decide
    · exact absurd rfl h

/-- C8 amended witness: a failing download run exits 1. -/
theorem c8_witness :
    (false = false) ∧ download_exit false ≠ 0 :=
  ⟨rfl, c8_amended.1 false rfl⟩

/-- C9 counterexample: for the input `/tmp/foo.pdf` the Extractor's output
path is `data/foo.json`, whose directory `data` is not the source PDF's
directory `/tmp` — the output goes to the fixed `data` directory, not
"next to the source PDF". -/
theorem c9_counterexample :
    parse_menu_output_file "/tmp/foo.pdf" = "data/foo.json" ∧
    pathParentDir (parse_menu_output_file "/tmp/foo.pdf") = "data" ∧
    pathParentDir "/tmp/foo.pdf" = "/tmp" ∧
    ("data" : String) ≠ "/tmp" := by
  refine ⟨by decide, by decide, by decide, by decide⟩

/-- Unfolding of the lexicographic comparison on a cons pair. -/
theorem lexLeb_cons (a b : Char) (as bs : List Char) :
    lexLeb (a :: as) (b :: bs)
      = if a.toNat < b.toNat then true
        else if b.toNat < a.toNat then false
        else lexLeb as bs := rfl

/-- The lexicographic comparison is total. -/
theorem lexLeb_total : ∀ x y : List Char, lexLeb x y = true ∨ lexLeb y x = true
  | [], _ => Or.inl rfl
  | _ :: _, [] => Or.inr rfl
  | a :: as, b :: bs => by
    rcases Nat.lt_trichotomy a.toNat b.toNat with h | h | h
    · left
      simp [lexLeb_cons, h]
    · have h1 : ¬ a.toNat < b.toNat := by omega
      have h2 : ¬ b.toNat < a.toNat := by omega
      rcases lexLeb_total as bs with hr | hr
      · left
        simp [lexLeb_cons, h1, h2, hr]
      · right
        simp [lexLeb_cons, h1, h2, hr]
    · right
      simp [lexLeb_cons, h]

/-- The lexicographic comparison is transitive. -/
theorem lexLeb_trans : ∀ x y z : List Char,
    lexLeb x y = true → lexLeb y z = true → lexLeb x z = true
  | [], _, _, _, _ => rfl
  | _ :: _, [], _, hxy, _ => by simp [lexLeb] at hxy
  | _ :: _, _ :: _, [], _, hyz => by simp [lexLeb] at hyz
  | a :: as, b :: bs, c :: cs, hxy, hyz => by
    rw [lexLeb_cons] at hxy hyz ⊢
    rcases Nat.lt_trichotomy a.toNat b.toNat with h1 | h1 | h1
    · rcases Nat.lt_trichotomy b.toNat c.toNat with h2 | h2 | h2
      · simp [show a.toNat < c.toNat by omega]
      · simp [show a.toNat < c.toNat by omega]
      · simp [h2, show ¬ b.toNat < c.toNat by omega] at hyz
    · rcases Nat.lt_trichotomy b.toNat c.toNat with h2 | h2 | h2
      · simp [show a.toNat < c.toNat by omega]
      · have hxy' : lexLeb as bs = true := by
          simpa [show ¬ a.toNat < b.toNat by omega, show ¬ b.toNat < a.toNat by omega]
            using hxy
        have hyz' : lexLeb bs cs = true := by
          simpa [show ¬ b.toNat < c.toNat by omega, show ¬ c.toNat < b.toNat by omega]
            using hyz
        simp [show ¬ a.toNat < c.toNat by omega, show ¬ c.toNat < a.toNat by omega,
          lexLeb_trans as bs cs hxy' hyz']
      · simp [h2, show ¬ b.toNat < c.toNat by omega] at hyz
    · simp [h1, show ¬ a.toNat < b.toNat by omega] at hxy

/-- The lexicographic comparison is antisymmetric. -/
theorem lexLeb_antisymm : ∀ x y : List Char,
    lexLeb x y = true → lexLeb y x = true → x = y
  | [], [], _, _ => rfl
  | _ :: _, [], hxy, _ => by simp [lexLeb] at hxy
  | [], _ :: _, _, hyx => by simp [lexLeb] at hyx
  | a :: as, b :: bs, hxy, hyx => by
    rw [lexLeb_cons] at hxy hyx
    rcases Nat.lt_trichotomy a.toNat b.toNat with h1 | h1 | h1
    · simp [h1, show ¬ b.toNat < a.toNat by omega] at hyx
    · have hab : a = b := Char.eq_of_val_eq (UInt32.ext h1)
      have hxy' : lexLeb as bs = true := by
        simpa [show ¬ a.toNat < b.toNat by omega, show ¬ b.toNat < a.toNat by omega]
          using hxy
      have hyx' : lexLeb bs as = true := by
        simpa [show ¬ a.toNat < b.toNat by omega, show ¬ b.toNat < a.toNat by omega]
          using hyx
      rw [hab, lexLeb_antisymm as bs hxy' hyx']
    · simp [h1, show ¬ a.toNat < b.toNat by omega] at hxy

/-- `strLe` is total. -/
theorem strLe_total (a b : String) : strLe a b ∨ strLe b a :=
  lexLeb_total a.data b.data

/-- `strLe` is transitive. -/
theorem strLe_trans {a b c : String} (h1 : strLe a b) (h2 : strLe b c) : strLe a c :=
  lexLeb_trans a.data b.data c.data h1 h2

/-- `strLe` is antisymmetric. -/
theorem strLe_antisymm {a b : String} (h1 : strLe a b) (h2 : strLe b a) : a = b := by
  cases a with
  | mk la =>
    cases b with
    | mk lb =>
      exact congrArg String.mk (lexLeb_antisymm la lb h1 h2)

/-- `unique_links` always returns an ascending list. -/
theorem sorted_unique_links (l : List String) : List.Sorted strLe (unique_links l) :=
  @List.sorted_insertionSort String strLe inferInstance
    ⟨strLe_total⟩ ⟨fun _ _ _ => strLe_trans⟩ l.dedup

/-- `unique_links` is invariant under permutation of the collected links:
only the set of links matters, not the order they appear on the page. -/
theorem unique_links_perm {l l' : List String} (h : l.Perm l') :
    unique_links l = unique_links l' := by
  refine @List.eq_of_perm_of_sorted String strLe ⟨fun _ _ => strLe_antisymm⟩ _ _
    ?_ (sorted_unique_links l) (sorted_unique_links l')
  exact ((List.perm_insertionSort strLe l.dedup).trans h.dedup).trans
    (List.perm_insertionSort strLe l'.dedup).symm

/-- C10 (confirmed): `unique_links = sorted(list(set(potential_links)))`
yields an ascending, duplicate-free list with exactly the collected links
as members, and the whole Fetcher run is invariant under permuting the
collected links — the saved "first match" is determined by this sorted,
duplicate-free order, not by the anchors' page order. -/
theorem c10_sorted_dedup_order (env : FetchEnv) (links other : List String)
    (hperm : links.Perm other) :
    List.Sorted strLe (unique_links links) ∧
    (unique_links links).Nodup ∧
    (∀ x, x ∈ unique_links links ↔ x ∈ links) ∧
    download_menu env links = download_menu env other := by
  refine ⟨sorted_unique_links links, ?_, ?_, ?_⟩
  · exact (List.perm_insertionSort strLe links.dedup).symm.nodup (List.nodup_dedup links)
  · intro x
    unfold unique_links
    rw [(List.perm_insertionSort strLe links.dedup).mem_iff, List.mem_dedup]
  · cases links with
    | nil =>
      have h : other = [] := hperm.symm.eq_nil
      rw [h]
    | cons a as =>
      cases other with
      | nil => exact absurd hperm.eq_nil (by simp)
      | cons b bs =>
        simp only [download_menu]
        rw [unique_links_perm hperm]

/-- C10 witness: two collected orders of the same two links. -/
theorem c10_witness :
    (["http://x/b.pdf", "http://x/a.pdf"] : List String).Perm
      ["http://x/a.pdf", "http://x/b.pdf"] ∧
    (List.Sorted strLe (unique_links ["http://x/b.pdf", "http://x/a.pdf"]) ∧
     (unique_links ["http://x/b.pdf", "http://x/a.pdf"]).Nodup ∧
     (∀ x, x ∈ unique_links ["http://x/b.pdf", "http://x/a.pdf"] ↔
        x ∈ ["http://x/b.pdf", "http://x/a.pdf"]) ∧
     download_menu envW ["http://x/b.pdf", "http://x/a.pdf"]
       = download_menu envW ["http://x/a.pdf", "http://x/b.pdf"]) :=
  ⟨by decide, c10_sorted_dedup_order envW ["http://x/b.pdf", "http://x/a.pdf"]
    ["http://x/a.pdf", "http://x/b.pdf"] (by decide)⟩

/-- C6 (confirmed): two candidates (plus possibly more behind them), the
first downloads but its PDF does not match the month, the second does
match: the Fetcher renames the second candidate's temp file to the
month-named output, stops the loop there (only temp files 0 and 1 were
ever attempted), and the cleanup deletes the first candidate's temp file,
leaving exactly the month-named output on disk and reporting success. -/
theorem c6_second_candidate (env : FetchEnv) (l0 l1 : String) (rest : List String)
    (c0 c1 : String)
    (hu : unique_links (l0 :: l1 :: rest) = l0 :: l1 :: rest)
    (h0 : env.download (convert_google_drive_link l0) = some c0)
    (h1 : env.download (convert_google_drive_link l1) = some c1)
    (hp0 : is_pdf_for_current_month env c0 = false)
    (hp1 : is_pdf_for_current_month env c1 = true)
    (hne0 : output_file env.month ≠ temp_file 0)
    (hne1 : output_file env.month ≠ temp_file 1) :
    download_menu env (l0 :: l1 :: rest)
      = ([(output_file env.month, c1)], [temp_file 0, temp_file 1], true) := by
  have hb0 : (output_file env.month == temp_file 0) = false :=
    beq_eq_false_iff_ne.mpr hne0
  have hb1 : (output_file env.month == temp_file 1) = false :=
    beq_eq_false_iff_ne.mpr hne1
  have hb0' : (temp_file 0 == output_file env.month) = false :=
    beq_eq_false_iff_ne.mpr (fun h => hne0 h.symm)
  have hb01 : (temp_file 0 == temp_file 1) = false := by decide
  have ht0 : (temp_file 0 == temp_file 0) = true := by decide
  have ht1 : (temp_file 1 == temp_file 1) = true := by decide
  simp only [download_menu]
  rw [hu]
  simp [download_loop, h0, h1, hp0, hp1, fsWrite, fsRename, fsUnlink, fsLookup,
    fsExists, fsEmpty, cleanupTemps, hb0, hb1, hb0', hb01, ht0, ht1]

/-- C6 witness: the concrete August world — candidate `a.pdf` holds the
July menu, candidate `b.pdf` the August menu, and a third candidate is
never reached. -/
theorem c6_witness :
    unique_links ["http://x/a.pdf", "http://x/b.pdf", "http://x/c.pdf"]
      = ["http://x/a.pdf", "http://x/b.pdf", "http://x/c.pdf"] ∧
    download_menu envW ["http://x/a.pdf", "http://x/b.pdf", "http://x/c.pdf"]
      = ([(output_file envW.month, "PDFB")], [temp_file 0, temp_file 1], true) :=
  ⟨by decide, c6_second_candidate envW "http://x/a.pdf" "http://x/b.pdf" ["http://x/c.pdf"]
    "PDFA" "PDFB" (by decide) (by decide) (by decide) (by decide) (by decide)
    (by decide) (by decide)⟩

/-- `takeWhile` passes over a prefix all of whose elements satisfy the
predicate. -/
theorem takeWhile_append_all {p : Char → Bool} :
    ∀ {l1 : List Char} (l2 : List Char), (∀ a ∈ l1, p a = true) →
      List.takeWhile p (l1 ++ l2) = l1 ++ List.takeWhile p l2
  | [], l2, _ => rfl
  | a :: l1, l2, h => by
    have ha : p a = true := h a (by simp)
    simp only [List.cons_append, List.takeWhile_cons, ha, if_true]
    rw [takeWhile_append_all l2 (fun x hx => h x (List.mem_cons_of_mem _ hx))]

/-- No character of a path's final component is a slash. -/
theorem lastComponent_no_slash (l : List Char) :
    ∀ c ∈ lastComponentChars l, (c == '/') = false := by
  intro c hc
  unfold lastComponentChars at hc
  rw [List.mem_reverse] at hc
  have := List.mem_takeWhile_imp hc
  simpa using this

/-- Every character of a name's stem is a character of the name. -/
theorem pyStem_subset (name : List Char) : ∀ c ∈ pyStemChars name, c ∈ name := by
  intro c hc
  simp only [pyStemChars] at hc
  split at hc
  · exact hc
  · split at hc
    · exact hc
    · split at hc
      · exact hc
      · rw [List.mem_reverse] at hc
        have hs := (List.drop_sublist _ _).mem hc
        rwa [List.mem_reverse] at hs

/-- No character of `pathStem p` is a slash. -/
theorem pathStem_no_slash (p : String) :
    ∀ c ∈ (pathStem p).data, (c == '/') = false := by
  intro c hc
  have h1 : c ∈ pyStemChars (lastComponentChars p.data) := hc
  exact lastComponent_no_slash p.data c (pyStem_subset _ c h1)

/-- Reversed character data of `"data/" ++ s ++ ".json"`. -/
theorem revJoin (s : String) :
    ("data/" ++ s ++ ".json").data.reverse
      = ['n', 'o', 's', 'j', '.'] ++ (s.data.reverse ++ '/' :: ['a', 't', 'a', 'd']) := by
  have h : ("data/" ++ s ++ ".json").data
      = (['d', 'a', 't', 'a', '/'] ++ s.data) ++ ['.', 'j', 's', 'o', 'n'] := rfl
  rw [h, List.reverse_append, List.reverse_append]
  rfl

/-- The final component of `"data/" ++ s ++ ".json"` for a slash-free `s`. -/
theorem lastComponent_join (s : String) (hs : ∀ c ∈ s.data, (c == '/') = false) :
    lastComponentChars ("data/" ++ s ++ ".json").data
      = s.data ++ ['.', 'j', 's', 'o', 'n'] := by
  have hnm : List.takeWhile (fun c => !(c == '/')) (("data/" ++ s ++ ".json").data.reverse)
      = ['n', 'o', 's', 'j', '.'] ++ s.data.reverse := by
    rw [revJoin]
    rw [takeWhile_append_all _ (by decide)]
    rw [takeWhile_append_all _ (fun a ha => by
      rw [List.mem_reverse] at ha
      simp [hs a ha])]
    rw [show List.takeWhile (fun c => !(c == '/')) ('/' :: ['a', 't', 'a', 'd']) = []
      from rfl]
    rw [List.append_nil]
  unfold lastComponentChars
  rw [hnm, List.reverse_append, List.reverse_reverse]
  rfl

/-- `pathlib` stem of a name of the form `l ++ ".json"` with `l` nonempty. -/
theorem pyStem_dotjson (l : List Char) (hne : l ≠ []) :
    pyStemChars (l ++ ['.', 'j', 's', 'o', 'n']) = l := by
  have hrev : (l ++ ['.', 'j', 's', 'o', 'n']).reverse
      = ['n', 'o', 's', 'j', '.'] ++ l.reverse := by
    rw [List.reverse_append]
    rfl
  have hext : List.takeWhile (fun c => !(c == '.'))
      (['n', 'o', 's', 'j', '.'] ++ l.reverse) = ['n', 'o', 's', 'j'] := rfl
  have hlen : (l ++ ['.', 'j', 's', 'o', 'n']).length = l.length + 5 := by
    simp [List.length_append]
  have hlen0 : l.length ≠ 0 := fun h => hne (List.length_eq_zero.mp h)
  simp only [pyStemChars, hrev, hext, hlen]
  rw [show ((['n', 'o', 's', 'j'] : List Char).length == l.length + 5) = false from
    beq_eq_false_iff_ne.mpr (by simp only [List.length_cons, List.length_nil]; omega)]
  rw [show ((['n', 'o', 's', 'j'] : List Char).length == 0) = false from rfl]
  rw [show ((['n', 'o', 's', 'j'] : List Char).length + 1 == l.length + 5) = false from
    beq_eq_false_iff_ne.mpr (by simp only [List.length_cons, List.length_nil]; omega)]
  simp only [Bool.false_eq_true, if_false]
  rw [show List.drop ((['n', 'o', 's', 'j'] : List Char).length + 1)
      ((['n', 'o', 's', 'j', '.'] : List Char) ++ l.reverse) = l.reverse from rfl]
  rw [List.reverse_reverse]

/-- `pathlib` suffix of a name of the form `l ++ ".json"` with `l` nonempty. -/
theorem pySuffix_dotjson (l : List Char) (hne : l ≠ []) :
    pySuffixChars (l ++ ['.', 'j', 's', 'o', 'n']) = ['.', 'j', 's', 'o', 'n'] := by
  have hrev : (l ++ ['.', 'j', 's', 'o', 'n']).reverse
      = ['n', 'o', 's', 'j', '.'] ++ l.reverse := by
    rw [List.reverse_append]
    rfl
  have hext : List.takeWhile (fun c => !(c == '.'))
      (['n', 'o', 's', 'j', '.'] ++ l.reverse) = ['n', 'o', 's', 'j'] := rfl
  have hlen : (l ++ ['.', 'j', 's', 'o', 'n']).length = l.length + 5 := by
    simp [List.length_append]
  have hlen0 : l.length ≠ 0 := fun h => hne (List.length_eq_zero.mp h)
  simp only [pySuffixChars, hrev, hext, hlen]
  rw [show ((['n', 'o', 's', 'j'] : List Char).length == l.length + 5) = false from
    beq_eq_false_iff_ne.mpr (by simp only [List.length_cons, List.length_nil]; omega)]
  rw [show ((['n', 'o', 's', 'j'] : List Char).length == 0) = false from rfl]
  rw [show ((['n', 'o', 's', 'j'] : List Char).length + 1 == l.length + 5) = false from
    beq_eq_false_iff_ne.mpr (by simp only [List.length_cons, List.length_nil]; omega)]
  simp only [Bool.false_eq_true, if_false]
  rfl

/-- The parent directory of `"data/" ++ s ++ ".json"` is `data` for
slash-free `s`. -/
theorem parentDir_join (s : String) (hs : ∀ c ∈ s.data, (c == '/') = false) :
    pathParentDir ("data/" ++ s ++ ".json") = "data" := by
  have hnm : List.takeWhile (fun c => !(c == '/')) (("data/" ++ s ++ ".json").data.reverse)
      = ['n', 'o', 's', 'j', '.'] ++ s.data.reverse := by
    rw [revJoin]
    rw [takeWhile_append_all _ (by decide)]
    rw [takeWhile_append_all _ (fun a ha => by
      rw [List.mem_reverse] at ha
      simp [hs a ha])]
    rw [show List.takeWhile (fun c => !(c == '/')) ('/' :: ['a', 't', 'a', 'd']) = []
      from rfl]
    rw [List.append_nil]
  have hnmlen : ((['n', 'o', 's', 'j', '.'] : List Char) ++ s.data.reverse).length
      = s.data.length + 5 := by
    simp only [List.length_append, List.length_reverse, List.length_cons, List.length_nil]
    omega
  have hlen : ("data/" ++ s ++ ".json").data.length = s.data.length + 10 := by
    rw [show ("data/" ++ s ++ ".json").data
      = (['d', 'a', 't', 'a', '/'] ++ s.data) ++ ['.', 'j', 's', 'o', 'n'] from rfl]
    simp only [List.length_append, List.length_cons, List.length_nil]
    omega
  have hcond : (((['n', 'o', 's', 'j', '.'] : List Char) ++ s.data.reverse).length
      == ("data/" ++ s ++ ".json").data.length) = false := by
    rw [hnmlen, hlen]
    exact beq_eq_false_iff_ne.mpr (by omega)
  simp only [pathParentDir, hnm, hcond, Bool.false_eq_true, if_false]
  rw [show ("data/" ++ s ++ ".json").data.reverse
      = ((['n', 'o', 's', 'j', '.'] : List Char) ++ s.data.reverse)
          ++ '/' :: ['a', 't', 'a', 'd'] from by
    rw [revJoin, List.append_assoc]]
  rw [List.drop_append 1]
  rfl

/-- A string with empty character data is the empty string. -/
theorem str_eq_empty_of_data : ∀ {s : String}, s.data = [] → s = ""
  | ⟨[]⟩, _ => rfl
  | ⟨_ :: _⟩, h => nomatch h

/-- C9 (amended): the Extractor writes the records to the FIXED `data`
directory under the PDF's base name with a `.json` extension —
`data/<stem>.json` — so the output keeps the PDF's base name and gets a
`.json` suffix, but its directory is always `data`, which coincides with
the source PDF's directory only when the PDF itself lives in `data`. -/
theorem c9_amended (p : String) :
    parse_menu_output_file p = "data/" ++ pathStem p ++ ".json" ∧
    pathParentDir (parse_menu_output_file p) = "data" ∧
    (pathStem p ≠ "" →
      pathStem (parse_menu_output_file p) = pathStem p ∧
      pathSuffix (parse_menu_output_file p) = ".json") := by
  refine ⟨rfl, parentDir_join (pathStem p) (pathStem_no_slash p), fun hne => ⟨?_, ?_⟩⟩
  · have hdata : (pathStem p).data ≠ [] := fun h => hne (str_eq_empty_of_data h)
    show String.mk (pyStemChars
      (lastComponentChars ("data/" ++ pathStem p ++ ".json").data)) = pathStem p
    rw [lastComponent_join (pathStem p) (pathStem_no_slash p), pyStem_dotjson _ hdata]
  · have hdata : (pathStem p).data ≠ [] := fun h => hne (str_eq_empty_of_data h)
    show String.mk (pySuffixChars
      (lastComponentChars ("data/" ++ pathStem p ++ ".json").data)) = ".json"
    rw [lastComponent_join (pathStem p) (pathStem_no_slash p), pySuffix_dotjson _ hdata]

/-- C9 amended witness: the normal-flow input `data/august.pdf`. -/
theorem c9_amended_witness :
    pathStem "data/august.pdf" ≠ "" ∧
    (pathStem (parse_menu_output_file "data/august.pdf") = pathStem "data/august.pdf" ∧
     pathSuffix (parse_menu_output_file "data/august.pdf") = ".json") :=
  ⟨by decide, (c9_amended "data/august.pdf").2.2 (by decide)⟩
